import Mathlib

/-!
Verification of the OCR-result reconciliation core of the chatApp repository:
the similarity metric `calculate_text_similarity` and the streaming merger
`merge_ocr_results` from `src/video/utils.py`, embedded shallowly.  Python
real arithmetic is embedded as exact rationals (`ℚ`), Python strings as Lean
`String` (a list of Unicode codepoints, matching Python's codepoint view).
-/

namespace VideoUtils

/-- Whitespace recognised by Python's `str.strip()`, restricted to the ASCII
whitespace characters (space, tab, newline, carriage return, vertical tab,
form feed).  Python additionally strips rarer Unicode whitespace codepoints;
no behaviour verified here depends on those. -/
def isSpace (c : Char) : Bool :=
  c = ' ' || c = '\t' || c = '\n' || c = '\r' || c = '\x0b' || c = '\x0c'

/-- Remove leading and trailing whitespace from a list of characters. -/
def stripChars (l : List Char) : List Char :=
  ((l.dropWhile isSpace).reverse.dropWhile isSpace).reverse

/-- Python's `text.strip()`. -/
def strip (s : String) : String :=
  ⟨stripChars s.data⟩

/-- Helper realising one row step of the Levenshtein recurrence: given
`f = levenshtein_distance s` and `len1 = (c1 :: s).length`, computes
`levenshtein_distance (c1 :: s)` by structural recursion on the second
string (see `levenshtein_cons_cons` for the recurrence it satisfies). -/
def levGo (c1 : Char) (f : List Char → Nat) (len1 : Nat) : List Char → Nat
  | [] => len1
  | c2 :: t =>
    if c1 = c2 then f t
    else 1 + min (f t) (min (levGo c1 f len1 t) (f (c2 :: t)))

/-- Levenshtein edit distance, as computed by the `python-Levenshtein`
library's `levenshtein_distance` used in `src/video/utils.py`: the minimum
number of single-character insertions, deletions and substitutions turning
one string into the other, by the textbook recurrence. -/
def levenshtein_distance : List Char → List Char → Nat
  | [], t => t.length
  | c1 :: s, t => levGo c1 (levenshtein_distance s) (s.length + 1) t

/-- The function `calculate_text_similarity(text1, text2)` of
`src/video/utils.py`: normalized edit-distance similarity.  Branches in
source order: both strings empty, one empty, the (unreachable) `max_len = 0`
guard, then `1 - distance / max_len`. -/
def calculate_text_similarity (text1 text2 : String) : ℚ :=
  if text1 = "" ∧ text2 = "" then 1
  else if text1 = "" ∨ text2 = "" then 0
  else
    let max_len := max text1.length text2.length
    if max_len = 0 then 1
    else
      let distance := levenshtein_distance text1.data text2.data
      1 - (distance : ℚ) / (max_len : ℚ)

/-- One OCR observation handed to `merge_ocr_results`: a dict with keys
`text` and `timestamp` (seconds). -/
structure Observation where
  text : String
  timestamp : ℚ
deriving DecidableEq, Repr

/-- The mutable `current_group` dict built inside `merge_ocr_results`,
with keys `text`, `start_time`, `end_time`, `frame_count`, `texts`. -/
structure Group where
  text : String
  start_time : ℚ
  end_time : ℚ
  frame_count : Nat
  texts : List String
deriving DecidableEq, Repr

/-- One element of the list returned by `merge_ocr_results`, with keys
`text`, `start_time`, `end_time`, `frame_count`. -/
structure MergedResult where
  text : String
  start_time : ℚ
  end_time : ℚ
  frame_count : Nat
deriving DecidableEq, Repr

/-- The projection dict appended to `merged_results` when a group closes
(the `texts` key is dropped). -/
def closeGroup (g : Group) : MergedResult :=
  ⟨g.text, g.start_time, g.end_time, g.frame_count⟩

/-- The dict created for a freshly opened group. -/
def newGroup (text : String) (timestamp : ℚ) : Group :=
  ⟨text, timestamp, timestamp, 1, [text]⟩

/-- One iteration of the `for result in sorted_results` loop of
`merge_ocr_results`: strip the text, skip blanks, open a group when none is
open, otherwise extend the open group when the time gate and the similarity
gate both pass, else close it and open a new one. -/
def mergeStep (similarity_threshold time_window : ℚ)
    (state : List MergedResult × Option Group) (result : Observation) :
    List MergedResult × Option Group :=
  let text := strip result.text
  let timestamp := result.timestamp
  if text = "" then state
  else
    match state with
    | (merged_results, none) => (merged_results, some (newGroup text timestamp))
    | (merged_results, some current_group) =>
      let time_diff := timestamp - current_group.end_time
      let similarity := calculate_text_similarity text current_group.text
      if time_diff ≤ time_window ∧ similarity ≥ similarity_threshold then
        (merged_results, some
          { current_group with
              end_time := timestamp
              frame_count := current_group.frame_count + 1
              texts := current_group.texts ++ [text]
              text := if text.length > current_group.text.length then text
                      else current_group.text })
      else
        (merged_results ++ [closeGroup current_group],
          some (newGroup text timestamp))

/-- The `if current_group: merged_results.append(...)` epilogue of
`merge_ocr_results`. -/
def finalize : List MergedResult × Option Group → List MergedResult
  | (merged_results, none) => merged_results
  | (merged_results, some current_group) =>
      merged_results ++ [closeGroup current_group]

/-- The function `merge_ocr_results(ocr_results, similarity_threshold,
time_window)` of `src/video/utils.py`: early return on empty input, stable
sort by timestamp (Python's `sorted`, modelled by `List.mergeSort`, which is
also stable), a single fold of `mergeStep`, then the epilogue. -/
def merge_ocr_results (ocr_results : List Observation)
    (similarity_threshold time_window : ℚ) : List MergedResult :=
  if ocr_results = [] then []
  else
    finalize
      ((ocr_results.mergeSort (fun a b => decide (a.timestamp ≤ b.timestamp))).foldl
        (mergeStep similarity_threshold time_window) ([], none))

/-! Basic computational sanity checks on the embedding. -/

example : strip "  Hello " = "Hello" := by decide
example : strip "   " = "" := by decide
example : levenshtein_distance "Hello".data "Hallo".data = 1 := by decide

/-! Claims with fully concrete inputs. -/

/-- Claim C4: the similarity of "Hello" and "World" is exactly 1 - 4/5 = 1/5
(that is, 0.2): their Levenshtein distance is 4 and the longer length is 5. -/
theorem similarity_hello_world :
    levenshtein_distance "Hello".data "World".data = 4 ∧
      calculate_text_similarity "Hello" "World" = 1/5 := by
  refine ⟨by decide, ?_⟩
  norm_num +decide [calculate_text_similarity]
  rw [show levenshtein_distance "Hello".data "World".data = 4 from by decide]
  norm_num [show ("Hello" : String).length = 5 from by decide,
    show ("World" : String).length = 5 from by decide]

/-- Claim C2: the time gate compares a new observation against the open
group's end_time, so `[Text1@1.0, Text1@2.5, Text1@5.0]` with threshold 0.8
and window 2.0 merges the first two (gap 1.5 ≤ 2) and starts a new group at
5.0 (gap 5.0 - 2.5 = 2.5 > 2 relative to the group's end_time 2.5). -/
theorem merge_time_gate_uses_end_time :
    merge_ocr_results
        [⟨"Text1", 1⟩, ⟨"Text1", 5/2⟩, ⟨"Text1", 5⟩] (8/10) 2 =
      [⟨"Text1", 1, 5/2, 2⟩, ⟨"Text1", 5, 5, 1⟩] := by
  have hsorted : List.Pairwise
      (fun a b : Observation => decide (a.timestamp ≤ b.timestamp) = true)
      [⟨"Text1", 1⟩, ⟨"Text1", 5/2⟩, ⟨"Text1", 5⟩] := by
    norm_num [List.pairwise_cons]
  have hsim : calculate_text_similarity "Text1" "Text1" = 1 := by
    norm_num +decide [calculate_text_similarity]
  have s1 : mergeStep (8/10) 2 ([], none) ⟨"Text1", 1⟩
      = ([], some ⟨"Text1", 1, 1, 1, ["Text1"]⟩) := by
    norm_num +decide [mergeStep, newGroup,
      show strip "Text1" = "Text1" from by decide]
  have s2 : mergeStep (8/10) 2 ([], some ⟨"Text1", 1, 1, 1, ["Text1"]⟩)
        ⟨"Text1", 5/2⟩
      = ([], some ⟨"Text1", 1, 5/2, 2, ["Text1", "Text1"]⟩) := by
    norm_num +decide [mergeStep, hsim,
      show strip "Text1" = "Text1" from by decide]
  have s3 : mergeStep (8/10) 2 ([], some ⟨"Text1", 1, 5/2, 2, ["Text1", "Text1"]⟩)
        ⟨"Text1", 5⟩
      = ([⟨"Text1", 1, 5/2, 2⟩], some ⟨"Text1", 5, 5, 1, ["Text1"]⟩) := by
    norm_num +decide [mergeStep, hsim, newGroup, closeGroup,
      show strip "Text1" = "Text1" from by decide]
  rw [merge_ocr_results, if_neg (by decide), List.mergeSort_of_sorted hsorted]
  rw [List.foldl_cons, s1, List.foldl_cons, s2, List.foldl_cons, s3,
    List.foldl_nil]
  simp [finalize, closeGroup]

/-- Claim C7: blank observations (empty or all-whitespace text) never open,
extend, or close a group: merging `[Hello@1.0, ""@2.0, "   "@3.0, World@4.0]`
with threshold 0.8 and window 2.0 yields exactly the two results for "Hello"
and "World". -/
theorem merge_skips_blank_observations :
    merge_ocr_results
        [⟨"Hello", 1⟩, ⟨"", 2⟩, ⟨"   ", 3⟩, ⟨"World", 4⟩] (8/10) 2 =
      [⟨"Hello", 1, 1, 1⟩, ⟨"World", 4, 4, 1⟩] := by
  have hsorted : List.Pairwise
      (fun a b : Observation => decide (a.timestamp ≤ b.timestamp) = true)
      [⟨"Hello", 1⟩, ⟨"", 2⟩, ⟨"   ", 3⟩, ⟨"World", 4⟩] := by
    norm_num [List.pairwise_cons]
  have s1 : mergeStep (8/10) 2 ([], none) ⟨"Hello", 1⟩
      = ([], some ⟨"Hello", 1, 1, 1, ["Hello"]⟩) := by
    norm_num +decide [mergeStep, newGroup,
      show strip "Hello" = "Hello" from by decide]
  have s2 : mergeStep (8/10) 2 ([], some ⟨"Hello", 1, 1, 1, ["Hello"]⟩) ⟨"", 2⟩
      = ([], some ⟨"Hello", 1, 1, 1, ["Hello"]⟩) := by
    norm_num +decide [mergeStep]
  have s3 : mergeStep (8/10) 2 ([], some ⟨"Hello", 1, 1, 1, ["Hello"]⟩) ⟨"   ", 3⟩
      = ([], some ⟨"Hello", 1, 1, 1, ["Hello"]⟩) := by
    norm_num +decide [mergeStep]
  have s4 : mergeStep (8/10) 2 ([], some ⟨"Hello", 1, 1, 1, ["Hello"]⟩) ⟨"World", 4⟩
      = ([⟨"Hello", 1, 1, 1⟩], some ⟨"World", 4, 4, 1, ["World"]⟩) := by
    norm_num +decide [mergeStep, newGroup, closeGroup,
      show strip "World" = "World" from by decide]
  rw [merge_ocr_results, if_neg (by decide), List.mergeSort_of_sorted hsorted]
  rw [List.foldl_cons, s1, List.foldl_cons, s2, List.foldl_cons, s3,
    List.foldl_cons, s4, List.foldl_nil]
  simp [finalize, closeGroup]

/-! Structural facts about the Levenshtein distance. -/

/-- The distance from the empty string is the other string's length. -/
theorem levenshtein_nil_left (t : List Char) :
    levenshtein_distance [] t = t.length := rfl

/-- The distance to the empty string is the other string's length. -/
theorem levenshtein_nil_right (s : List Char) :
    levenshtein_distance s [] = s.length := by
  cases s with
  | nil => rfl
  | cons c s => rfl

/-- The textbook Levenshtein recurrence on two nonempty strings. -/
theorem levenshtein_cons_cons (c1 c2 : Char) (s t : List Char) :
    levenshtein_distance (c1 :: s) (c2 :: t) =
      if c1 = c2 then levenshtein_distance s t
      else 1 + min (levenshtein_distance s t)
        (min (levenshtein_distance (c1 :: s) t)
          (levenshtein_distance s (c2 :: t))) := rfl

/-- A string is at distance 0 from itself. -/
theorem levenshtein_self (s : List Char) : levenshtein_distance s s = 0 := by
  induction s with
  | nil => rfl
  | cons c s ih => rw [levenshtein_cons_cons, if_pos rfl, ih]

/-- Levenshtein distance is symmetric. -/
theorem levenshtein_comm (s t : List Char) :
    levenshtein_distance s t = levenshtein_distance t s := by
  induction s generalizing t with
  | nil => rw [levenshtein_nil_left, levenshtein_nil_right]
  | cons c1 s ih =>
    induction t with
    | nil => rw [levenshtein_nil_left, levenshtein_nil_right]
    | cons c2 t iht =>
      rw [levenshtein_cons_cons, levenshtein_cons_cons]
      by_cases h : c1 = c2
      · rw [if_pos h, if_pos h.symm, ih]
      · rw [if_neg h, if_neg (fun hh => h hh.symm), ih t, ih (c2 :: t), iht]
        omega

/-- Levenshtein distance never exceeds the length of the longer string. -/
theorem levenshtein_le_max (s t : List Char) :
    levenshtein_distance s t ≤ max s.length t.length := by
  induction s generalizing t with
  | nil =>
    rw [levenshtein_nil_left]
    exact le_max_right _ _
  | cons c1 s ih =>
    induction t with
    | nil =>
      rw [levenshtein_nil_right]
      exact le_max_left _ _
    | cons c2 t iht =>
      rw [levenshtein_cons_cons]
      have h1 := ih t
      have h2 := ih (c2 :: t)
      simp only [List.length_cons] at *
      by_cases h : c1 = c2
      · rw [if_pos h]
        omega
      · rw [if_neg h]
        omega

/-! Claims about the similarity metric in general. -/

/-- Claim C5: the similarity of any two strings lies in the closed unit
interval: the Levenshtein distance never exceeds the longer length, so the
normalized value 1 - distance / max_len is between 0 and 1, and the early
empty-string branches return 1 and 0. -/
theorem similarity_mem_unit_interval (a b : String) :
    0 ≤ calculate_text_similarity a b ∧ calculate_text_similarity a b ≤ 1 := by
  simp only [calculate_text_similarity]
  split
  · norm_num
  · split
    · norm_num
    · split
      · norm_num
      · rename_i h1 h2 h3
        have hL : 0 < max a.length b.length := Nat.pos_of_ne_zero h3
        have hLq : (0 : ℚ) < ((max a.length b.length : ℕ) : ℚ) :=
          Nat.cast_pos.mpr hL
        have hd : levenshtein_distance a.data b.data ≤ max a.length b.length :=
          levenshtein_le_max a.data b.data
        have hdq : ((levenshtein_distance a.data b.data : ℕ) : ℚ)
            ≤ ((max a.length b.length : ℕ) : ℚ) := Nat.cast_le.mpr hd
        constructor
        · have hh : ((levenshtein_distance a.data b.data : ℕ) : ℚ)
              / ((max a.length b.length : ℕ) : ℚ) ≤ 1 :=
            (div_le_one hLq).mpr hdq
          linarith
        · have hh : (0 : ℚ) ≤ ((levenshtein_distance a.data b.data : ℕ) : ℚ)
              / ((max a.length b.length : ℕ) : ℚ) :=
            div_nonneg (Nat.cast_nonneg _) hLq.le
          linarith

/-- Claim C6: the similarity metric is symmetric, because the Levenshtein
distance and the maximum of the two lengths are both symmetric and the
empty-string special cases are mirror images of each other. -/
theorem similarity_comm (a b : String) :
    calculate_text_similarity a b = calculate_text_similarity b a := by
  by_cases ha : a = ""
  · by_cases hb : b = ""
    · subst ha; subst hb; rfl
    · subst ha
      simp [calculate_text_similarity, hb]
  · by_cases hb : b = ""
    · subst hb
      simp [calculate_text_similarity, ha]
    · simp only [calculate_text_similarity]
      rw [if_neg (fun h => ha h.1), if_neg (fun h => Or.elim h ha hb)]
      rw [if_neg (fun h : b = "" ∧ a = "" => hb h.1),
        if_neg (fun h : b = "" ∨ a = "" => Or.elim h hb ha)]
      rw [levenshtein_comm a.data b.data, max_comm a.length b.length]

/-- Claim C10: the similarity metric does not trim its inputs: a nonempty
all-whitespace string compared with the empty string falls into the
one-side-empty branch and scores 0, while compared with itself it goes
through the edit-distance branch and scores 1. -/
theorem similarity_whitespace_untrimmed (a : String) (h1 : a ≠ "")
    (h2 : ∀ c ∈ a.data, isSpace c = true) :
    calculate_text_similarity a "" = 0 ∧ calculate_text_similarity a a = 1 := by
  constructor
  · simp [calculate_text_similarity, h1]
  · have hlen : a.length ≠ 0 := by
      intro h
      exact h1 (String.ext (List.length_eq_zero.mp h))
    simp only [calculate_text_similarity]
    rw [if_neg (fun h => h1 h.1), if_neg (fun h => Or.elim h h1 h1)]
    rw [if_neg (by simpa using hlen)]
    rw [levenshtein_self]
    norm_num

/-- Witness for C10 at the one-character whitespace string. -/
theorem similarity_whitespace_untrimmed_witness :
    calculate_text_similarity " " "" = 0 ∧
      calculate_text_similarity " " " " = 1 :=
  similarity_whitespace_untrimmed " " (by decide) (by decide)

/-! Case-shape lemmas for one loop iteration, shared by the claims about
the merger. -/

/-- A blank observation (empty text after stripping) leaves the loop state
unchanged. -/
theorem mergeStep_blank (th tw : ℚ) (s : List MergedResult × Option Group)
    (o : Observation) (hb : strip o.text = "") :
    mergeStep th tw s o = s := by
  rcases s with ⟨rs, g⟩
  cases g <;> simp [mergeStep, hb]

/-- A non-blank observation with no open group opens a fresh group. -/
theorem mergeStep_none (th tw : ℚ) (rs : List MergedResult) (o : Observation)
    (hb : strip o.text ≠ "") :
    mergeStep th tw (rs, none) o
      = (rs, some (newGroup (strip o.text) o.timestamp)) := by
  simp [mergeStep, hb]

/-- The group produced when an observation joins the open group: end_time
moves to the new timestamp, frame_count is incremented, the text is recorded,
and the representative is replaced exactly when the new text is strictly
longer. -/
def joinGroup (g : Group) (text : String) (timestamp : ℚ) : Group :=
  { g with
      end_time := timestamp
      frame_count := g.frame_count + 1
      texts := g.texts ++ [text]
      text := if text.length > g.text.length then text else g.text }

/-- A non-blank observation that passes both gates joins the open group. -/
theorem mergeStep_join (th tw : ℚ) (rs : List MergedResult) (g : Group)
    (o : Observation) (hb : strip o.text ≠ "")
    (hj : o.timestamp - g.end_time ≤ tw ∧
      calculate_text_similarity (strip o.text) g.text ≥ th) :
    mergeStep th tw (rs, some g) o
      = (rs, some (joinGroup g (strip o.text) o.timestamp)) := by
  show (if strip o.text = "" then ((rs, some g) : List MergedResult × Option Group)
      else if o.timestamp - g.end_time ≤ tw ∧
          calculate_text_similarity (strip o.text) g.text ≥ th then
        (rs, some (joinGroup g (strip o.text) o.timestamp))
      else (rs ++ [closeGroup g], some (newGroup (strip o.text) o.timestamp)))
    = (rs, some (joinGroup g (strip o.text) o.timestamp))
  rw [if_neg hb, if_pos hj]

/-- A non-blank observation that fails a gate closes the open group and
opens a fresh one. -/
theorem mergeStep_close (th tw : ℚ) (rs : List MergedResult) (g : Group)
    (o : Observation) (hb : strip o.text ≠ "")
    (hj : ¬(o.timestamp - g.end_time ≤ tw ∧
      calculate_text_similarity (strip o.text) g.text ≥ th)) :
    mergeStep th tw (rs, some g) o
      = (rs ++ [closeGroup g], some (newGroup (strip o.text) o.timestamp)) := by
  show (if strip o.text = "" then ((rs, some g) : List MergedResult × Option Group)
      else if o.timestamp - g.end_time ≤ tw ∧
          calculate_text_similarity (strip o.text) g.text ≥ th then
        (rs, some (joinGroup g (strip o.text) o.timestamp))
      else (rs ++ [closeGroup g], some (newGroup (strip o.text) o.timestamp)))
    = (rs ++ [closeGroup g], some (newGroup (strip o.text) o.timestamp))
  rw [if_neg hb, if_neg hj]

/-! Conservation of observation counts (claim C1). -/

/-- Total frame count accounted for by a loop state: frames of all closed
results plus the open group's frames, if any. -/
def stateFrames : List MergedResult × Option Group → Nat
  | (rs, none) => (rs.map (fun r => r.frame_count)).sum
  | (rs, some g) => (rs.map (fun r => r.frame_count)).sum + g.frame_count

/-- Each loop iteration adds 1 to the accounted frames exactly when the
observation is non-blank. -/
theorem stateFrames_mergeStep (th tw : ℚ)
    (s : List MergedResult × Option Group) (o : Observation) :
    stateFrames (mergeStep th tw s o)
      = stateFrames s + (if strip o.text = "" then 0 else 1) := by
  rcases s with ⟨rs, g⟩
  by_cases hb : strip o.text = ""
  · rw [mergeStep_blank th tw _ o hb, if_pos hb]
    omega
  · rw [if_neg hb]
    cases g with
    | none =>
      rw [mergeStep_none th tw rs o hb]
      simp [stateFrames, newGroup]
    | some g =>
      by_cases hj : o.timestamp - g.end_time ≤ tw ∧
          calculate_text_similarity (strip o.text) g.text ≥ th
      · rw [mergeStep_join th tw rs g o hb hj]
        simp only [stateFrames, joinGroup]
        omega
      · rw [mergeStep_close th tw rs g o hb hj]
        simp only [stateFrames, newGroup, closeGroup, List.map_append,
          List.sum_append, List.map_cons, List.map_nil, List.sum_cons,
          List.sum_nil]
        omega

/-- Folding the loop over any observation list adds the number of non-blank
observations to the accounted frames. -/
theorem stateFrames_foldl (th tw : ℚ) (l : List Observation) :
    ∀ s, stateFrames (l.foldl (mergeStep th tw) s)
      = stateFrames s + l.countP (fun o => strip o.text != "") := by
  induction l with
  | nil => intro s; simp
  | cons o l ih =>
    intro s
    rw [List.foldl_cons, ih, stateFrames_mergeStep, List.countP_cons]
    by_cases hb : strip o.text = "" <;> simp [hb] <;> omega

/-- Claim C1: the sum of frame_count over the results of merge_ocr_results
is exactly the number of input observations whose text is non-empty after
stripping whitespace; no non-blank observation is dropped or double
counted. -/
theorem merge_frame_count_sum (obs : List Observation) (th tw : ℚ) :
    ((merge_ocr_results obs th tw).map (fun r => r.frame_count)).sum
      = obs.countP (fun o => strip o.text != "") := by
  by_cases h : obs = []
  · subst h
    simp [merge_ocr_results]
  · rw [merge_ocr_results, if_neg h]
    have hperm : (obs.mergeSort (fun a b => decide (a.timestamp ≤ b.timestamp))).countP
          (fun o => strip o.text != "")
        = obs.countP (fun o => strip o.text != "") :=
      (List.mergeSort_perm obs _).countP_eq _
    have hfin : ∀ s : List MergedResult × Option Group,
        ((finalize s).map (fun r => r.frame_count)).sum = stateFrames s := by
      rintro ⟨rs, g⟩
      cases g <;> simp [finalize, stateFrames, closeGroup]
    rw [hfin, stateFrames_foldl, ← hperm]
    simp [stateFrames]

/-! Ordering invariants of the merger (claims C3 and C9). -/

/-- Ordering invariant of an emitted result list: consecutive results have
non-decreasing start times and non-overlapping intervals, and every interval
is well-formed. -/
def resultsOrdered (l : List MergedResult) : Prop :=
  l.Chain' (fun a b => a.start_time ≤ b.start_time ∧ a.end_time ≤ b.start_time)
    ∧ ∀ r ∈ l, r.start_time ≤ r.end_time

theorem resultsOrdered_nil : resultsOrdered [] :=
  ⟨List.chain'_nil, by simp⟩

theorem resultsOrdered_singleton (a : MergedResult)
    (h : a.start_time ≤ a.end_time) : resultsOrdered [a] := by
  refine ⟨List.chain'_singleton a, ?_⟩
  intro r hr
  rw [List.mem_singleton] at hr
  subst hr
  exact h

/-- Replacing the final result by one with the same start time and a
well-formed interval preserves the ordering invariant. -/
theorem resultsOrdered_replace_last (rs : List MergedResult)
    (a b : MergedResult) (hst : b.start_time = a.start_time)
    (hse : b.start_time ≤ b.end_time)
    (h : resultsOrdered (rs ++ [a])) : resultsOrdered (rs ++ [b]) := by
  obtain ⟨hc, hm⟩ := h
  rw [List.chain'_append] at hc
  constructor
  · rw [List.chain'_append]
    refine ⟨hc.1, List.chain'_singleton b, ?_⟩
    intro x hx y hy
    simp only [List.head?_cons, Option.mem_def, Option.some.injEq] at hy
    subst hy
    have hxa := hc.2.2 x hx a (by simp)
    exact ⟨hst ▸ hxa.1, hst ▸ hxa.2⟩
  · intro r hr
    rcases List.mem_append.mp hr with h1 | h1
    · exact hm r (List.mem_append.mpr (Or.inl h1))
    · rw [List.mem_singleton] at h1
      subst h1
      exact hse

/-- Appending a well-formed result that starts no earlier than the previous
result ends preserves the ordering invariant. -/
theorem resultsOrdered_snoc (rs : List MergedResult) (b : MergedResult)
    (hb : b.start_time ≤ b.end_time)
    (hlink : ∀ x ∈ rs.getLast?, x.end_time ≤ b.start_time)
    (h : resultsOrdered rs) : resultsOrdered (rs ++ [b]) := by
  obtain ⟨hc, hm⟩ := h
  constructor
  · rw [List.chain'_append]
    refine ⟨hc, List.chain'_singleton b, ?_⟩
    intro x hx y hy
    simp only [List.head?_cons, Option.mem_def, Option.some.injEq] at hy
    subst hy
    have hend := hlink x hx
    exact ⟨(hm x (List.mem_of_mem_getLast? hx)).trans hend, hend⟩
  · intro r hr
    rcases List.mem_append.mp hr with h1 | h1
    · exact hm r h1
    · rw [List.mem_singleton] at h1
      subst h1
      exact hb

/-- Core invariant of the merge loop: from a well-ordered emitted list whose
open group ends no later than every remaining (time-sorted) timestamp, the
finalized output is well ordered. -/
theorem foldl_ordered (th tw : ℚ) (l : List Observation) :
    ∀ (rs : List MergedResult) (g : Group),
      l.Pairwise (fun a b => a.timestamp ≤ b.timestamp) →
      resultsOrdered (rs ++ [closeGroup g]) →
      (∀ o ∈ l, g.end_time ≤ o.timestamp) →
      resultsOrdered (finalize (l.foldl (mergeStep th tw) (rs, some g))) := by
  induction l with
  | nil =>
    intro rs g _ hord _
    simpa [finalize] using hord
  | cons o l ih =>
    intro rs g hp hord hbound
    rcases List.pairwise_cons.mp hp with ⟨hpo, hpl⟩
    have hots : g.end_time ≤ o.timestamp := hbound o (List.mem_cons_self o l)
    rw [List.foldl_cons]
    by_cases hblank : strip o.text = ""
    · rw [mergeStep_blank th tw _ o hblank]
      exact ih rs g hpl hord (fun o2 ho2 => hbound o2 (List.mem_cons_of_mem o ho2))
    · by_cases hj : o.timestamp - g.end_time ≤ tw ∧
          calculate_text_similarity (strip o.text) g.text ≥ th
      · rw [mergeStep_join th tw rs g o hblank hj]
        apply ih rs (joinGroup g (strip o.text) o.timestamp) hpl
        · apply resultsOrdered_replace_last rs (closeGroup g)
              (closeGroup (joinGroup g (strip o.text) o.timestamp)) rfl ?_ hord
          show g.start_time ≤ o.timestamp
          have hstart : g.start_time ≤ g.end_time :=
            hord.2 (closeGroup g) (by simp)
          exact hstart.trans hots
        · intro o2 ho2
          exact hpo o2 ho2
      · rw [mergeStep_close th tw rs g o hblank hj]
        apply ih (rs ++ [closeGroup g]) (newGroup (strip o.text) o.timestamp) hpl
        · apply resultsOrdered_snoc _ _ (le_refl _) ?_ hord
          intro x hx
          rw [List.getLast?_concat] at hx
          simp only [Option.mem_def, Option.some.injEq] at hx
          subst hx
          exact hots
        · intro o2 ho2
          exact hpo o2 ho2

/-- Starting the merge loop from the empty state on a time-sorted list
yields a well-ordered output. -/
theorem foldl_ordered_none (th tw : ℚ) (l : List Observation) :
    l.Pairwise (fun a b => a.timestamp ≤ b.timestamp) →
    resultsOrdered (finalize (l.foldl (mergeStep th tw) ([], none))) := by
  induction l with
  | nil =>
    intro _
    exact resultsOrdered_nil
  | cons o l ih =>
    intro hp
    rcases List.pairwise_cons.mp hp with ⟨hpo, hpl⟩
    rw [List.foldl_cons]
    by_cases hblank : strip o.text = ""
    · rw [mergeStep_blank th tw _ o hblank]
      exact ih hpl
    · rw [mergeStep_none th tw [] o hblank]
      apply foldl_ordered th tw l [] (newGroup (strip o.text) o.timestamp) hpl
      · exact resultsOrdered_singleton _ (le_refl _)
      · intro o2 ho2
        exact hpo o2 ho2

/-- The full merger output satisfies the ordering invariant. -/
theorem merge_resultsOrdered (obs : List Observation) (th tw : ℚ) :
    resultsOrdered (merge_ocr_results obs th tw) := by
  by_cases h : obs = []
  · rw [merge_ocr_results, if_pos h]
    exact resultsOrdered_nil
  · rw [merge_ocr_results, if_neg h]
    apply foldl_ordered_none
    have hs : (obs.mergeSort (fun a b => decide (a.timestamp ≤ b.timestamp))).Pairwise
        (fun a b => decide (a.timestamp ≤ b.timestamp) = true) :=
      List.sorted_mergeSort
        (fun a b c hab hbc => by
          simp only [decide_eq_true_eq] at *
          exact le_trans hab hbc)
        (fun a b => by
          simp only [Bool.or_eq_true, decide_eq_true_eq]
          exact le_total a.timestamp b.timestamp)
        obs
    exact hs.imp (fun h2 => of_decide_eq_true h2)

/-- Claim C9: in the output of merge_ocr_results, each result's interval is
well-formed (start_time ≤ end_time) and adjacent results do not overlap
(each result ends no later than the next one starts). -/
theorem merge_intervals_ordered (obs : List Observation) (th tw : ℚ) :
    (merge_ocr_results obs th tw).Chain' (fun a b => a.end_time ≤ b.start_time)
      ∧ ∀ r ∈ merge_ocr_results obs th tw, r.start_time ≤ r.end_time := by
  obtain ⟨hc, hm⟩ := merge_resultsOrdered obs th tw
  exact ⟨hc.imp (fun a b h => h.2), hm⟩

/-- Claim C3: the start_time sequence of merge_ocr_results is non-decreasing
for every input list, including unsorted ones. -/
theorem merge_start_times_sorted (obs : List Observation) (th tw : ℚ) :
    ((merge_ocr_results obs th tw).map (fun r => r.start_time)).Sorted (· ≤ ·) := by
  obtain ⟨hc, hm⟩ := merge_resultsOrdered obs th tw
  show ((merge_ocr_results obs th tw).map (fun r => r.start_time)).Pairwise (· ≤ ·)
  rw [← List.chain'_iff_pairwise, List.chain'_map]
  exact hc.imp (fun a b h => h.1)

/-! Representative-text policy (claim C8).  To speak about the member texts
of each emitted group we rerun the same loop without projecting away the
texts key at close time, and prove the projected run equal to
merge_ocr_results. -/

/-- Variant of mergeStep that appends the closed group itself instead of its
closeGroup projection. -/
def mergeStepG (similarity_threshold time_window : ℚ)
    (state : List Group × Option Group) (result : Observation) :
    List Group × Option Group :=
  let text := strip result.text
  let timestamp := result.timestamp
  if text = "" then state
  else
    match state with
    | (closed, none) => (closed, some (newGroup text timestamp))
    | (closed, some current_group) =>
      let time_diff := timestamp - current_group.end_time
      let similarity := calculate_text_similarity text current_group.text
      if time_diff ≤ time_window ∧ similarity ≥ similarity_threshold then
        (closed, some (joinGroup current_group text timestamp))
      else
        (closed ++ [current_group], some (newGroup text timestamp))

/-- Epilogue of the unprojected run. -/
def finalizeG : List Group × Option Group → List Group
  | (closed, none) => closed
  | (closed, some current_group) => closed ++ [current_group]

/-- The merger with groups kept whole instead of projected. -/
def merge_ocr_groups (ocr_results : List Observation)
    (similarity_threshold time_window : ℚ) : List Group :=
  if ocr_results = [] then []
  else
    finalizeG
      ((ocr_results.mergeSort (fun a b => decide (a.timestamp ≤ b.timestamp))).foldl
        (mergeStepG similarity_threshold time_window) ([], none))

theorem mergeStepG_blank (th tw : ℚ) (s : List Group × Option Group)
    (o : Observation) (hb : strip o.text = "") :
    mergeStepG th tw s o = s := by
  rcases s with ⟨cs, g⟩
  cases g <;> simp [mergeStepG, hb]

theorem mergeStepG_none (th tw : ℚ) (cs : List Group) (o : Observation)
    (hb : strip o.text ≠ "") :
    mergeStepG th tw (cs, none) o
      = (cs, some (newGroup (strip o.text) o.timestamp)) := by
  simp [mergeStepG, hb]

theorem mergeStepG_join (th tw : ℚ) (cs : List Group) (g : Group)
    (o : Observation) (hb : strip o.text ≠ "")
    (hj : o.timestamp - g.end_time ≤ tw ∧
      calculate_text_similarity (strip o.text) g.text ≥ th) :
    mergeStepG th tw (cs, some g) o
      = (cs, some (joinGroup g (strip o.text) o.timestamp)) := by
  show (if strip o.text = "" then ((cs, some g) : List Group × Option Group)
      else if o.timestamp - g.end_time ≤ tw ∧
          calculate_text_similarity (strip o.text) g.text ≥ th then
        (cs, some (joinGroup g (strip o.text) o.timestamp))
      else (cs ++ [g], some (newGroup (strip o.text) o.timestamp)))
    = (cs, some (joinGroup g (strip o.text) o.timestamp))
  rw [if_neg hb, if_pos hj]

theorem mergeStepG_close (th tw : ℚ) (cs : List Group) (g : Group)
    (o : Observation) (hb : strip o.text ≠ "")
    (hj : ¬(o.timestamp - g.end_time ≤ tw ∧
      calculate_text_similarity (strip o.text) g.text ≥ th)) :
    mergeStepG th tw (cs, some g) o
      = (cs ++ [g], some (newGroup (strip o.text) o.timestamp)) := by
  show (if strip o.text = "" then ((cs, some g) : List Group × Option Group)
      else if o.timestamp - g.end_time ≤ tw ∧
          calculate_text_similarity (strip o.text) g.text ≥ th then
        (cs, some (joinGroup g (strip o.text) o.timestamp))
      else (cs ++ [g], some (newGroup (strip o.text) o.timestamp)))
    = (cs ++ [g], some (newGroup (strip o.text) o.timestamp))
  rw [if_neg hb, if_neg hj]

/-- One iteration of the projected loop equals the projection of one
iteration of the unprojected loop. -/
theorem mergeStep_stepG (th tw : ℚ) (cs : List Group) (g : Option Group)
    (o : Observation) :
    mergeStep th tw (cs.map closeGroup, g) o
      = ((mergeStepG th tw (cs, g) o).1.map closeGroup,
          (mergeStepG th tw (cs, g) o).2) := by
  by_cases hb : strip o.text = ""
  · rw [mergeStep_blank th tw _ o hb, mergeStepG_blank th tw _ o hb]
  · cases g with
    | none =>
      rw [mergeStep_none th tw _ o hb, mergeStepG_none th tw _ o hb]
    | some g =>
      by_cases hj : o.timestamp - g.end_time ≤ tw ∧
          calculate_text_similarity (strip o.text) g.text ≥ th
      · rw [mergeStep_join th tw _ g o hb hj, mergeStepG_join th tw _ g o hb hj]
      · rw [mergeStep_close th tw _ g o hb hj, mergeStepG_close th tw _ g o hb hj]
        simp

/-- The projected fold equals the projection of the unprojected fold. -/
theorem foldl_stepG (th tw : ℚ) (l : List Observation) :
    ∀ (cs : List Group) (g : Option Group),
      l.foldl (mergeStep th tw) (cs.map closeGroup, g)
        = ((l.foldl (mergeStepG th tw) (cs, g)).1.map closeGroup,
            (l.foldl (mergeStepG th tw) (cs, g)).2) := by
  induction l with
  | nil => intro cs g; rfl
  | cons o l ih =>
    intro cs g
    rw [List.foldl_cons, List.foldl_cons, mergeStep_stepG]
    exact ih (mergeStepG th tw (cs, g) o).1 (mergeStepG th tw (cs, g) o).2

/-- merge_ocr_results is the closeGroup projection of merge_ocr_groups. -/
theorem merge_eq_groups (obs : List Observation) (th tw : ℚ) :
    merge_ocr_results obs th tw = (merge_ocr_groups obs th tw).map closeGroup := by
  by_cases h : obs = []
  · rw [merge_ocr_results, merge_ocr_groups, if_pos h, if_pos h]
    rfl
  · rw [merge_ocr_results, merge_ocr_groups, if_neg h, if_neg h]
    have hpair : (([] : List MergedResult), (none : Option Group))
        = ((([] : List Group).map closeGroup), (none : Option Group)) := rfl
    rw [hpair, foldl_stepG th tw _ [] none]
    generalize (obs.mergeSort (fun a b => decide (a.timestamp ≤ b.timestamp))).foldl
      (mergeStepG th tw) ([], none) = p
    rcases p with ⟨cs, g⟩
    cases g <;> simp [finalize, finalizeG]

/-- The representative of a group is one of its member texts and has maximal
length among them. -/
def repOK (g : Group) : Prop :=
  g.text ∈ g.texts ∧ ∀ t ∈ g.texts, t.length ≤ g.text.length

theorem repOK_newGroup (text : String) (ts : ℚ) : repOK (newGroup text ts) := by
  constructor
  · simp [newGroup]
  · intro t ht
    simp only [newGroup, List.mem_singleton] at ht
    subst ht
    exact le_refl _

theorem repOK_joinGroup (g : Group) (text : String) (ts : ℚ) (h : repOK g) :
    repOK (joinGroup g text ts) := by
  obtain ⟨hmem, hmax⟩ := h
  constructor
  · simp only [joinGroup]
    by_cases hlen : text.length > g.text.length
    · rw [if_pos hlen]
      exact List.mem_append.mpr (Or.inr (List.mem_singleton.mpr rfl))
    · rw [if_neg hlen]
      exact List.mem_append.mpr (Or.inl hmem)
  · intro t ht
    simp only [joinGroup] at ht ⊢
    rcases List.mem_append.mp ht with h1 | h1
    · have hle := hmax t h1
      by_cases hlen : text.length > g.text.length
      · rw [if_pos hlen]; omega
      · rw [if_neg hlen]; exact hle
    · rw [List.mem_singleton] at h1
      rw [h1]
      by_cases hlen : text.length > g.text.length
      · rw [if_pos hlen]
      · rw [if_neg hlen]; omega

/-- One unprojected iteration preserves the representative invariant on the
whole state. -/
theorem stepG_repOK (th tw : ℚ) (cs : List Group) (g : Option Group)
    (o : Observation) (h1 : ∀ x ∈ cs, repOK x) (h2 : ∀ x ∈ g, repOK x) :
    (∀ x ∈ (mergeStepG th tw (cs, g) o).1, repOK x) ∧
      (∀ x ∈ (mergeStepG th tw (cs, g) o).2, repOK x) := by
  by_cases hb : strip o.text = ""
  · rw [mergeStepG_blank th tw _ o hb]
    exact ⟨h1, h2⟩
  · cases g with
    | none =>
      rw [mergeStepG_none th tw cs o hb]
      refine ⟨h1, ?_⟩
      intro x hx
      simp only [Option.mem_def, Option.some.injEq] at hx
      subst hx
      exact repOK_newGroup _ _
    | some g =>
      by_cases hj : o.timestamp - g.end_time ≤ tw ∧
          calculate_text_similarity (strip o.text) g.text ≥ th
      · rw [mergeStepG_join th tw cs g o hb hj]
        refine ⟨h1, ?_⟩
        intro x hx
        simp only [Option.mem_def, Option.some.injEq] at hx
        subst hx
        exact repOK_joinGroup g _ _ (h2 g (by simp))
      · rw [mergeStepG_close th tw cs g o hb hj]
        refine ⟨?_, ?_⟩
        · intro x hx
          rcases List.mem_append.mp hx with hA | hA
          · exact h1 x hA
          · rw [List.mem_singleton] at hA
            subst hA
            exact h2 x (by simp)
        · intro x hx
          simp only [Option.mem_def, Option.some.injEq] at hx
          subst hx
          exact repOK_newGroup _ _

/-- Every group emitted by the unprojected fold satisfies the representative
invariant. -/
theorem foldl_repOK (th tw : ℚ) (l : List Observation) :
    ∀ (cs : List Group) (g : Option Group),
      (∀ x ∈ cs, repOK x) → (∀ x ∈ g, repOK x) →
      ∀ x ∈ finalizeG (l.foldl (mergeStepG th tw) (cs, g)), repOK x := by
  induction l with
  | nil =>
    intro cs g h1 h2
    rw [List.foldl_nil]
    cases g with
    | none => exact h1
    | some g =>
      intro x hx
      rcases List.mem_append.mp hx with hA | hA
      · exact h1 x hA
      · rw [List.mem_singleton] at hA
        subst hA
        exact h2 x (by simp)
  | cons o l ih =>
    intro cs g h1 h2
    rw [List.foldl_cons]
    have hstep := stepG_repOK th tw cs g o h1 h2
    exact ih (mergeStepG th tw (cs, g) o).1 (mergeStepG th tw (cs, g) o).2
      hstep.1 hstep.2

/-- Every group emitted by merge_ocr_groups satisfies the representative
invariant. -/
theorem merge_ocr_groups_repOK (obs : List Observation) (th tw : ℚ) :
    ∀ g ∈ merge_ocr_groups obs th tw, repOK g := by
  by_cases h : obs = []
  · rw [merge_ocr_groups, if_pos h]
    intro g hg
    exact absurd hg (List.not_mem_nil g)
  · rw [merge_ocr_groups, if_neg h]
    exact foldl_repOK th tw _ [] none (by simp) (by simp)

/-- Claim C8: when an observation joins the open group the representative is
replaced by the incoming trimmed text exactly when that text is strictly
longer (the ite in the updated group below), and consequently every emitted
group's representative is one of its member texts of maximal length, with
merge_ocr_results being the closeGroup projection of those groups. -/
theorem merge_representative_longest (obs : List Observation) (th tw : ℚ)
    (rs : List MergedResult) (g : Group) (o : Observation)
    (hb : strip o.text ≠ "")
    (hj : o.timestamp - g.end_time ≤ tw ∧
      calculate_text_similarity (strip o.text) g.text ≥ th) :
    (mergeStep th tw (rs, some g) o).2 = some
        { g with
            end_time := o.timestamp
            frame_count := g.frame_count + 1
            texts := g.texts ++ [strip o.text]
            text := if (strip o.text).length > g.text.length then strip o.text
                    else g.text } ∧
      merge_ocr_results obs th tw = (merge_ocr_groups obs th tw).map closeGroup ∧
      ∀ g2 ∈ merge_ocr_groups obs th tw,
        g2.text ∈ g2.texts ∧ ∀ t ∈ g2.texts, t.length ≤ g2.text.length := by
  refine ⟨?_, merge_eq_groups obs th tw, fun g2 hg2 =>
    merge_ocr_groups_repOK obs th tw g2 hg2⟩
  rw [mergeStep_join th tw rs g o hb hj]
  rfl

/-- Witness for C8 at a concrete joining observation. -/
theorem merge_representative_longest_witness :
    (mergeStep (8/10) 2 ([], some ⟨"abcd", 1, 1, 1, ["abcd"]⟩) ⟨"abcde", 2⟩).2
        = some ⟨"abcde", 1, 2, 2, ["abcd", "abcde"]⟩ ∧
      merge_ocr_results [] (8/10) 2 = (merge_ocr_groups [] (8/10) 2).map closeGroup ∧
      ∀ g2 ∈ merge_ocr_groups [] (8/10) 2,
        g2.text ∈ g2.texts ∧ ∀ t ∈ g2.texts, t.length ≤ g2.text.length := by
  have hsim : calculate_text_similarity "abcde" "abcd" = 4/5 := by
    norm_num +decide [calculate_text_similarity]
    rw [show levenshtein_distance "abcde".data "abcd".data = 1 from by decide]
    norm_num [show ("abcde" : String).length = 5 from by decide,
      show ("abcd" : String).length = 4 from by decide]
  exact merge_representative_longest [] (8/10) 2 []
    ⟨"abcd", 1, 1, 1, ["abcd"]⟩ ⟨"abcde", 2⟩ (by decide)
    ⟨show (2 : ℚ) - 1 ≤ 2 from by norm_num,
      show calculate_text_similarity "abcde" "abcd" ≥ 8/10 from by
        rw [hsim]; norm_num⟩

end VideoUtils
